import Mathlib

/-!
Shallow embedding of the `deadline` crate (src/lib.rs).

The crate has three layers:

* `Fut` (src/lib.rs:12-25): a future wrapping a borrowed predicate
  `&dyn Fn() -> bool`.  Each `poll` invokes the predicate once; `true`
  yields `Poll::Ready(())`, `false` calls `cx.waker().wake_by_ref()`
  (requesting an immediate re-poll) and yields `Poll::Pending`.
* `deadline_inner` (src/lib.rs:28-33): `timeout(wait_limit, Fut(&condition)).await`,
  racing the polling future against tokio's timer.
* the `deadline!` assertion helper (src/lib.rs:72-92): asserts the result is
  `Ok`, panicking with a message built from the stringified condition
  (whitespace-normalized, with a leading `"move || "` stripped).

Time is modelled in scheduler turns: because `Fut` re-wakes itself
immediately on every `Pending`, the task is polled once per turn, so one
turn corresponds to one predicate invocation.  A `wait_limit` of `L` turns
means the timer fires at turn `L` (with `L = 0` the timer is already
expired at the first poll).
-/

namespace Deadline

/-- Rust's `core::task::Poll`: either `Ready` with a payload or `Pending`. -/
inductive Poll (α : Type) where
  | ready (value : α)
  | pending
deriving Repr, DecidableEq

/-- tokio's `time::error::Elapsed`: a single error kind carrying no payload
(`pub struct Elapsed(())` upstream). -/
inductive Elapsed where
  | mk
deriving Repr, DecidableEq

/-- The future of src/lib.rs:12, `struct Fut<'a>(&'a dyn Fn() -> bool)`.
The borrowed predicate is modelled as an oracle: `cond k` is the value the
predicate returns at its `k`-th invocation (a constant function models a
pure predicate, a non-constant one models a predicate reading state mutated
by other tasks). -/
structure Fut where
  cond : Nat → Bool

/-- Observable outcome of one call of `Fut::poll`: the returned `Poll`,
whether `cx.waker().wake_by_ref()` was called during it, and the total
number of predicate invocations after it. -/
structure PollStep where
  result : Poll Unit
  wokeUp : Bool
  calls : Nat
deriving Repr, DecidableEq

/-- `Fut::poll` (src/lib.rs:17-24): evaluate `self.0()` once (this is the
`callsBefore`-th invocation); on `true` return `Ready(())`, on `false`
wake the task immediately and return `Pending`. -/
def Fut.poll (f : Fut) (callsBefore : Nat) : PollStep :=
  if f.cond callsBefore then
    { result := .ready (), wokeUp := false, calls := callsBefore + 1 }
  else
    { result := .pending, wokeUp := true, calls := callsBefore + 1 }

/-- Modelled from the spec: the body of tokio's `Timeout::poll`, which is a
consumed capability and not in src/.  One poll of
`timeout(wait_limit, fut)`: the wrapped future is polled first; if it is
ready the result is `Ok`, otherwise the deadline timer is checked and, if
it has fired, the result is `Err(Elapsed)`; otherwise the race is still
pending (`none`). -/
def timeoutPoll (f : Fut) (k : Nat) (timerFired : Bool) :
    Option (Except Elapsed Unit) :=
  match (f.poll k).result with
  | .ready _ => some (.ok ())
  | .pending => if timerFired then some (.error .mk) else none

/-- Modelled from the spec: the cooperative scheduler driving the
`timeout(wait_limit, Fut(&condition))` future of src/lib.rs:32 to
completion (the tokio runtime is a consumed capability and not in src/).
`runFrom cond t rem` is the race starting at turn `t` with `rem` turns left
before the timer fires.  Each turn polls the inner `Fut` first (one
predicate invocation), exactly as `Timeout::poll` does; if the predicate is
true the race resolves `Ok` at once, otherwise, when the timer has fired
(`rem = 0`), it resolves `Err(Elapsed)`, and when it has not, the
immediately re-woken task is polled again next turn.  The value returned is
`(outcome, turn at which the race resolved, number of predicate
invocations performed)`. -/
def runFrom (cond : Nat → Bool) (t : Nat) :
    Nat → Except Elapsed Unit × Nat × Nat
  | 0 =>
    if cond t then (.ok (), t, 1) else (.error .mk, t, 1)
  | rem + 1 =>
    if cond t then (.ok (), t, 1)
    else
      let r := runFrom cond (t + 1) rem
      (r.1, r.2.1, r.2.2 + 1)

/-- `deadline_inner` (src/lib.rs:28-33): race the condition against the
wait limit, returning `Ok(())` on completion and `Err(Elapsed)` on
timeout.  `wait_limit` is measured in scheduler turns. -/
def deadline_inner (wait_limit : Nat) (condition : Nat → Bool) :
    Except Elapsed Unit :=
  (runFrom condition 0 wait_limit).1

/-- The whitespace normalization of the `deadline!` macro
(src/lib.rs:80-83): `stringify!($condition).split_whitespace()` collected
and re-joined with single spaces.  Strings are handled at the character
level, matching Rust's `char`-based string methods: split at whitespace
characters, keep the non-empty pieces, join them with a single space. -/
def normalizeWs (s : String) : String :=
  ⟨List.intercalate [' ']
    ((s.data.splitOnP Char.isWhitespace).filter (fun piece => piece ≠ []))⟩

/-- Rust's `str::strip_prefix` as used at src/lib.rs:84: `some` of the
remainder when `p` is a prefix of `s`, else `none`. -/
def stripLeading (s p : String) : Option String :=
  if p.data.isPrefixOf s.data then some ⟨s.data.drop p.data.length⟩ else none

/-- The condition description built by the `deadline!` macro
(src/lib.rs:79-89): normalize whitespace, then strip a leading
`"move || "` if present. -/
def conditionDescription (s : String) : String :=
  match stripLeading (normalizeWs s) ("move || ") with
  | some rest => rest
  | none => normalizeWs s

/-- The panic message of the `deadline!` macro (src/lib.rs:78): the fixed
text followed by the condition description. -/
def deadlineMessage (s : String) : String :=
  "the deadline has elapsed for condition: " ++ conditionDescription s

/-- Follows the claim's words, for comparison with `conditionDescription`:
the description is the whitespace-normalized condition text with a leading
closure-introduction token (a no-argument-lambda marker, i.e. either
`"move || "` or a plain `"|| "`) removed. -/
def claimDescription (s : String) : String :=
  match stripLeading (normalizeWs s) ("move || ") with
  | some rest => rest
  | none =>
    match stripLeading (normalizeWs s) ("|| ") with
    | some rest => rest
    | none => normalizeWs s

/-- Repeated sequential invocations of the mechanism: the list of outcomes
of `n` runs of `deadline_inner` with the same wait limit and predicate. -/
def repeatOutcomes (cond : Nat → Bool) (L n : Nat) :
    List (Except Elapsed Unit) :=
  (List.range n).map (fun _ => deadline_inner L cond)

example : conditionDescription ("move ||   x  ==  y") = "x == y" := by decide

example : deadlineMessage ("|| true") =
    "the deadline has elapsed for condition: || true" := by decide

example : deadline_inner 0 (fun _ => true) = .ok () := rfl

example : runFrom (fun _ => false) 0 2 = (.error .mk, 2, 3) := rfl

example : runFrom (fun t => t == 1) 0 1 = (.ok (), 1, 2) := rfl

example : timeoutPoll ⟨fun _ => true⟩ 0 true = some (.ok ()) := rfl

/-- A predicate that is true when first polled resolves the race at once:
one poll, `Ok`, regardless of the remaining budget. -/
lemma runFrom_ok_of_true (cond : Nat → Bool) (t rem : Nat)
    (h : cond t = true) : runFrom cond t rem = (.ok (), t, 1) := by
  cases rem <;> simp [runFrom, h]

/-- A predicate that stays false from turn `t` through turn `t + rem`
makes the race run out its whole budget and resolve `Err(Elapsed)` at the
turn the timer fires, after exactly one invocation per turn. -/
lemma runFrom_all_false (cond : Nat → Bool) :
    ∀ rem t, (∀ i, t ≤ i → i ≤ t + rem → cond i = false) →
      runFrom cond t rem = (.error .mk, t + rem, rem + 1) := by
  intro rem
  induction rem with
  | zero =>
    intro t h
    simp [runFrom, h t le_rfl (by omega)]
  | succ rem ih =>
    intro t h
    have ht : cond t = false := h t le_rfl (by omega)
    have hrec := ih (t + 1) (fun i h1 h2 => h i (by omega) (by omega))
    simp only [runFrom, ht, Bool.false_eq_true, if_false, hrec]
    simp only [Prod.mk.injEq, true_and, and_true]
    omega

/-- A predicate that is false strictly before turn `t + rem` and true at
turn `t + rem` (the turn at which the timer fires) resolves the race as
`Ok` at that very turn. -/
lemma runFrom_true_at_end (cond : Nat → Bool) :
    ∀ rem t, (∀ i, t ≤ i → i < t + rem → cond i = false) →
      cond (t + rem) = true →
      runFrom cond t rem = (.ok (), t + rem, rem + 1) := by
  intro rem
  induction rem with
  | zero =>
    intro t _ htrue
    simp only [Nat.add_zero] at htrue
    simp [runFrom, htrue]
  | succ rem ih =>
    intro t h htrue
    have ht : cond t = false := h t le_rfl (by omega)
    have hrec := ih (t + 1) (fun i h1 h2 => h i (by omega) (by omega))
      (by have : t + 1 + rem = t + (rem + 1) := by omega
          rw [this]; exact htrue)
    simp only [runFrom, ht, Bool.false_eq_true, if_false, hrec]
    simp only [Prod.mk.injEq, true_and, and_true]
    omega

/-- Exhaustive description of a run: either it resolves `Ok` at a turn
where the predicate returned true, having made one invocation per elapsed
turn, or it resolves `Err(Elapsed)` exactly at the turn the timer fires,
having made `rem + 1` invocations (one per turn, the firing turn
included). -/
lemma runFrom_spec (cond : Nat → Bool) :
    ∀ rem t,
      ((runFrom cond t rem).1 = .ok () ∧
        cond (runFrom cond t rem).2.1 = true ∧
        t ≤ (runFrom cond t rem).2.1 ∧
        (runFrom cond t rem).2.1 ≤ t + rem ∧
        (runFrom cond t rem).2.2 = (runFrom cond t rem).2.1 - t + 1) ∨
      runFrom cond t rem = (.error .mk, t + rem, rem + 1) := by
  intro rem
  induction rem with
  | zero =>
    intro t
    by_cases h : cond t = true
    · left
      simp [runFrom, h]
    · right
      simp [runFrom, h]
  | succ rem ih =>
    intro t
    by_cases h : cond t = true
    · left
      simp [runFrom, h]
    · have hstep : runFrom cond t (rem + 1) =
          ((runFrom cond (t + 1) rem).1, (runFrom cond (t + 1) rem).2.1,
            (runFrom cond (t + 1) rem).2.2 + 1) := by
        simp [runFrom, h]
      rcases ih (t + 1) with ⟨h1, h2, h3, h4, h5⟩ | herr
      · left
        rw [hstep]
        dsimp only
        refine ⟨h1, h2, by omega, by omega, by omega⟩
      · right
        rw [hstep, herr]
        dsimp only
        simp only [Prod.mk.injEq, true_and, and_true]
        omega

/-- When `stripLeading` succeeds, the input is exactly the stripped marker
followed by the returned remainder. -/
lemma stripLeading_some (s p rest : String)
    (h : stripLeading s p = some rest) : s.data = p.data ++ rest.data := by
  by_cases hp : p.data.isPrefixOf s.data
  · simp only [stripLeading, hp, if_true, Option.some.injEq] at h
    obtain ⟨t, ht⟩ := List.isPrefixOf_iff_prefix.mp hp
    have hr : rest.data = s.data.drop p.data.length := by rw [← h]
    rw [hr, ← ht, List.drop_left]
  · simp [stripLeading, hp] at h

/-- When the pattern is not a character-level prefix of the input,
`stripLeading` returns `none`. -/
lemma stripLeading_eq_none (s p : String) (h : ¬ p.data <+: s.data) :
    stripLeading s p = none := by
  have hb : ¬ p.data.isPrefixOf s.data = true :=
    fun hc => h (List.isPrefixOf_iff_prefix.mp hc)
  simp [stripLeading, hb]

/-- Claim C1: each single poll of the polling future invokes the predicate
exactly once (the invocation counter advances by exactly one), the poll
returns `Ready(())` if and only if that invocation returned true, and on a
false invocation it returns `Pending` after requesting an immediate
re-wake of the task. -/
theorem fut_poll_once (f : Fut) (k : Nat) :
    (f.poll k).calls = k + 1
    ∧ ((f.poll k).result = .ready () ↔ f.cond k = true)
    ∧ (f.cond k = false →
        (f.poll k).result = .pending ∧ (f.poll k).wokeUp = true) := by
  by_cases h : f.cond k = true
  · simp [Fut.poll, h]
  · simp [Fut.poll, h]

/-- Concrete instance of `fut_poll_once` at an always-false predicate. -/
theorem fut_poll_once_w :
    ((Fut.mk fun _ => false).poll 0).result = .pending
    ∧ ((Fut.mk fun _ => false).poll 0).wokeUp = true :=
  (fut_poll_once (Fut.mk fun _ => false) 0).2.2 rfl

/-- Claim C2: a predicate that is already true when `deadline_inner` is
called resolves as `Ok(())` for every wait limit, including a wait limit
of zero: the race completes at turn 0 after a single predicate
invocation. -/
theorem deadline_true_at_call (condition : Nat → Bool) (wait_limit : Nat)
    (h : condition 0 = true) :
    deadline_inner wait_limit condition = .ok ()
    ∧ runFrom condition 0 wait_limit = (.ok (), 0, 1) := by
  have hrun := runFrom_ok_of_true condition 0 wait_limit h
  exact ⟨by simp [deadline_inner, hrun], hrun⟩

/-- Concrete instance of `deadline_true_at_call` with wait limit zero. -/
theorem deadline_true_at_call_w :
    deadline_inner 0 (fun _ => true) = .ok ()
    ∧ runFrom (fun _ => true) 0 0 = (.ok (), 0, 1) :=
  deadline_true_at_call (fun _ => true) 0 rfl

/-- Claim C3: a predicate that returns false on every invocation made
during the whole wait limit resolves as `Err(Elapsed)`, and the race
resolves exactly at the turn the timer fires — never earlier. -/
theorem deadline_all_false_elapsed (condition : Nat → Bool)
    (wait_limit : Nat) (h : ∀ t, t ≤ wait_limit → condition t = false) :
    deadline_inner wait_limit condition = .error .mk
    ∧ runFrom condition 0 wait_limit =
        (.error .mk, wait_limit, wait_limit + 1) := by
  have hrun := runFrom_all_false condition wait_limit 0
    (fun i h1 h2 => h i (by omega))
  rw [Nat.zero_add] at hrun
  exact ⟨by simp [deadline_inner, hrun], hrun⟩

/-- Concrete instance of `deadline_all_false_elapsed` at wait limit 2. -/
theorem deadline_all_false_elapsed_w :
    deadline_inner 2 (fun _ => false) = .error .mk
    ∧ runFrom (fun _ => false) 0 2 = (.error .mk, 2, 3) :=
  deadline_all_false_elapsed (fun _ => false) 2 (fun _ _ => rfl)

/-- Claim C4: when the predicate becomes true in the same scheduling step
in which the timer fires, the race resolves as `Ok`, not `Err(Elapsed)`:
a single poll of the timeout with the inner future ready and the timer
fired yields `Ok`, and a run whose predicate first turns true exactly at
the timer-fire turn completes successfully. -/
theorem deadline_tie_break_completed (condition : Nat → Bool)
    (wait_limit : Nat) (h1 : ∀ t, t < wait_limit → condition t = false)
    (h2 : condition wait_limit = true) :
    timeoutPoll ⟨condition⟩ wait_limit true = some (.ok ())
    ∧ runFrom condition 0 wait_limit =
        (.ok (), wait_limit, wait_limit + 1)
    ∧ deadline_inner wait_limit condition = .ok () := by
  have hrun := runFrom_true_at_end condition wait_limit 0
    (fun i ha hb => h1 i (by omega)) (by rw [Nat.zero_add]; exact h2)
  rw [Nat.zero_add] at hrun
  refine ⟨?_, hrun, by simp [deadline_inner, hrun]⟩
  simp [timeoutPoll, Fut.poll, h2]

/-- Concrete instance of `deadline_tie_break_completed`: the predicate
turns true exactly at turn 1, where a wait limit of 1 fires the timer. -/
theorem deadline_tie_break_completed_w :
    timeoutPoll ⟨fun t => t == 1⟩ 1 true = some (.ok ())
    ∧ runFrom (fun t => t == 1) 0 1 = (.ok (), 1, 2)
    ∧ deadline_inner 1 (fun t => t == 1) = .ok () :=
  deadline_tie_break_completed (fun t => t == 1) 1 (by decide) rfl

/-- Claim C5: `deadline_inner` surfaces timeout as a normal result value:
every run returns either `Ok(())` or `Err(Elapsed)`, and the `Elapsed`
error type has exactly one value carrying no payload. -/
theorem deadline_single_error_kind (condition : Nat → Bool)
    (wait_limit : Nat) :
    (deadline_inner wait_limit condition = .ok ()
      ∨ deadline_inner wait_limit condition = .error .mk)
    ∧ ∀ e e' : Elapsed, e = e' := by
  refine ⟨?_, fun e e' => by cases e; cases e'; rfl⟩
  rcases runFrom_spec condition wait_limit 0 with ⟨h1, _⟩ | herr
  · exact .inl (by simp [deadline_inner, h1])
  · exact .inr (by simp [deadline_inner, herr])

/-- Claim C6 counterexample: for the non-move closure text `|| true` the
panic message keeps the leading no-argument-lambda marker, while the
claim's description (leading closure-introduction token removed) drops it,
so the claim as stated fails at this input. -/
theorem deadline_message_marker_kept :
    deadlineMessage ("|| true") =
      "the deadline has elapsed for condition: || true"
    ∧ claimDescription ("|| true") = "true"
    ∧ deadlineMessage ("|| true") ≠
        "the deadline has elapsed for condition: " ++
          claimDescription ("|| true") := by
  exact ⟨by decide, by decide, by decide⟩

/-- Claim C6 (amended): on timeout the panic message is exactly
`the deadline has elapsed for condition: ` followed by the
whitespace-normalized condition text with a leading `move || ` marker
removed when present and kept unchanged otherwise (in particular the
stripped text is exactly the `move || ` marker followed by the printed
remainder). -/
theorem deadline_message_amended (s : String) :
    (∀ rest, stripLeading (normalizeWs s) ("move || ") = some rest →
      deadlineMessage s = "the deadline has elapsed for condition: " ++ rest
      ∧ (normalizeWs s).data = ("move || ").data ++ rest.data)
    ∧ (stripLeading (normalizeWs s) ("move || ") = none →
      deadlineMessage s =
        "the deadline has elapsed for condition: " ++ normalizeWs s)
    ∧ deadlineMessage ("move ||   x  ==   y") =
        "the deadline has elapsed for condition: x == y" := by
  refine ⟨?_, ?_, by decide⟩
  · intro rest h
    refine ⟨?_, stripLeading_some _ _ _ h⟩
    simp [deadlineMessage, conditionDescription, h]
  · intro h
    simp [deadlineMessage, conditionDescription, h]

/-- Concrete instance of `deadline_message_amended` on a move closure. -/
theorem deadline_message_amended_w :
    deadlineMessage ("move || a") =
      "the deadline has elapsed for condition: a"
    ∧ (normalizeWs ("move || a")).data = ("move || ").data ++ ("a").data :=
  (deadline_message_amended ("move || a")).1 "a" (by decide)

/-- Claim C7: repeated sequential invocations of the mechanism are
idempotent in outcome: every one of `n` runs with an always-true predicate
yields `Ok(())`, and every one of `n` runs with an always-false predicate
and the same wait limit yields `Err(Elapsed)`. -/
theorem deadline_idempotent (wait_limit n : Nat) :
    repeatOutcomes (fun _ => true) wait_limit n =
      List.replicate n (.ok ())
    ∧ repeatOutcomes (fun _ => false) wait_limit n =
      List.replicate n (.error .mk) := by
  have htrue : deadline_inner wait_limit (fun _ => true) = .ok () := by
    simp [deadline_inner, runFrom_ok_of_true (fun _ => true) 0 wait_limit rfl]
  have hfalse : deadline_inner wait_limit (fun _ => false) = .error .mk := by
    have hrun := runFrom_all_false (fun _ => false) wait_limit 0
      (fun _ _ _ => rfl)
    simp [deadline_inner, hrun]
  constructor
  · simp [repeatOutcomes, htrue, List.map_const', List.length_range]
  · simp [repeatOutcomes, hfalse, List.map_const', List.length_range]

/-- Claim C8: the only events that terminate the race are predicate
completion and timer expiry: every run either resolves `Ok` at a turn
where the predicate returned true, or resolves `Err(Elapsed)` exactly at
the timer-fire turn, after exactly `wait_limit + 1` predicate invocations
(one per turn up to and including the firing turn, and none after the
race has resolved). -/
theorem deadline_elapsed_terminal (condition : Nat → Bool)
    (wait_limit : Nat) :
    ((runFrom condition 0 wait_limit).1 = .ok ()
      ∧ condition (runFrom condition 0 wait_limit).2.1 = true)
    ∨ runFrom condition 0 wait_limit =
        (.error .mk, wait_limit, wait_limit + 1) := by
  rcases runFrom_spec condition wait_limit 0 with ⟨h1, h2, _⟩ | herr
  · exact .inl ⟨h1, h2⟩
  · rw [Nat.zero_add] at herr
    exact .inr herr

/-- Claim C9: the polling-future layer is total and infallible: every poll
returns either `Ready(())` or `Pending`; its output type admits no error
and no timeout of its own. -/
theorem fut_poll_infallible (f : Fut) (k : Nat) :
    (f.poll k).result = .ready () ∨ (f.poll k).result = .pending := by
  by_cases h : f.cond k = true
  · exact .inl (by simp [Fut.poll, h])
  · exact .inr (by simp [Fut.poll, h])

/-- Claim C10: the description normalization strips only the exact marker
`move || `: when the normalized condition text does not begin with it
(character-level prefix) the description is the normalized text unchanged,
closure marker included; when it does, exactly that marker is removed. -/
theorem description_strips_only_move_marker (s : String) :
    (stripLeading (normalizeWs s) ("move || ") = none →
      conditionDescription s = normalizeWs s)
    ∧ (¬ ("move || ").data <+: (normalizeWs s).data →
      conditionDescription s = normalizeWs s)
    ∧ (∀ rest, stripLeading (normalizeWs s) ("move || ") = some rest →
      conditionDescription s = rest)
    ∧ conditionDescription ("|| x == y") = "|| x == y" := by
  refine ⟨?_, ?_, ?_, by decide⟩
  · intro h
    simp [conditionDescription, h]
  · intro h
    simp [conditionDescription, stripLeading_eq_none _ _ h]
  · intro rest h
    simp [conditionDescription, h]

/-- Concrete instance of `description_strips_only_move_marker` on a
non-move closure: the plain lambda marker is kept. -/
theorem description_strips_only_move_marker_w :
    conditionDescription ("|| x") = normalizeWs ("|| x") :=
  (description_strips_only_move_marker ("|| x")).1 (by decide)

end Deadline
